import Mathlib

/-!
# Verification of the bitcoin-ts authentication VM core

A shallow embedding of the library's Script Number codec, VarInt codec,
push-opcode family, common opcodes, Bitcoin Cash instruction set, and the
three-pass program composer, together with theorems settling the spec claims.

Bytes are modelled as `Nat` values; every `Uint8Array` produced by the code
keeps its elements below 256, and theorems that consume arbitrary byte arrays
carry that bound as a hypothesis.
-/

namespace BitcoinTs

/-- Sum `bytes[i] * 256^i` over a little-endian byte list. The source builds
this with `result |= BigInt(bytes[byte]) << BigInt(byte * 8)`; for byte values
below 256 the shifted summands have disjoint bits, so bitwise or is addition. -/
def bytesToNatLE : List Nat → Nat
  | [] => 0
  | b :: rest => b + 256 * bytesToNatLE rest

/-- Fuel-driven core of the encoder's `while (remaining > 0)` loop: emit
`remaining & 0xff`, shift right by 8, repeat. Fuel only bounds the recursion;
`fuel ≥ m` is always enough since `m / 256 < m` for `m ≠ 0`. -/
def natToBytesLEGo : Nat → Nat → List Nat
  | _, 0 => []
  | 0, _ + 1 => []
  | fuel + 1, m + 1 => (m + 1) % 256 :: natToBytesLEGo fuel ((m + 1) / 256)

/-- Little-endian base-256 digits of `m` (empty for 0), as emitted by the
encoder's while loop. -/
def natToBytesLE (m : Nat) : List Nat :=
  natToBytesLEGo m m

theorem natToBytesLEGo_fuel_irrel :
    ∀ fuel₁ fuel₂ m, m ≤ fuel₁ → m ≤ fuel₂ →
      natToBytesLEGo fuel₁ m = natToBytesLEGo fuel₂ m := by
  intro fuel₁
  induction fuel₁ with
  | zero =>
    intro fuel₂ m h₁ _
    interval_cases m
    cases fuel₂ <;> rfl
  | succ f ih =>
    intro fuel₂ m h₁ h₂
    match m, fuel₂ with
    | 0, fuel₂ => cases fuel₂ <;> rfl
    | m + 1, 0 => omega
    | m + 1, f₂ + 1 =>
      simp only [natToBytesLEGo]
      exact congrArg _ (ih f₂ ((m + 1) / 256) (by omega) (by omega))

theorem natToBytesLE_zero : natToBytesLE 0 = [] := rfl

theorem natToBytesLE_succ (m : Nat) (h : m ≠ 0) :
    natToBytesLE m = m % 256 :: natToBytesLE (m / 256) := by
  obtain ⟨k, rfl⟩ : ∃ k, m = k + 1 := ⟨m - 1, by omega⟩
  show natToBytesLEGo (k + 1) (k + 1) = _
  simp only [natToBytesLEGo]
  refine congrArg _ (natToBytesLEGo_fuel_irrel k ((k + 1) / 256) ((k + 1) / 256) ?_ le_rfl)
  omega

/-- Decoding the encoder's digits recovers the number. -/
theorem bytesToNatLE_natToBytesLE (m : Nat) : bytesToNatLE (natToBytesLE m) = m := by
  induction m using Nat.strong_induction_on with
  | _ m ih =>
    rcases Nat.eq_zero_or_pos m with h | h
    · subst h; rfl
    · rw [natToBytesLE_succ m (by omega)]
      have := ih (m / 256) (by omega)
      simp only [bytesToNatLE, this]
      omega

theorem natToBytesLE_lt_256 (m : Nat) : ∀ x ∈ natToBytesLE m, x < 256 := by
  induction m using Nat.strong_induction_on with
  | _ m ih =>
    rcases Nat.eq_zero_or_pos m with h | h
    · subst h; simp [natToBytesLE_zero]
    · rw [natToBytesLE_succ m (by omega)]
      intro x hx
      rcases List.mem_cons.mp hx with h' | h'
      · omega
      · exact ih (m / 256) (by omega) x h'

/-- Structure of the encoder's digits for a nonzero number: a (byte-bounded)
prefix followed by a nonzero top byte, whose weighted sum is the number. -/
theorem natToBytesLE_structure (m : Nat) (h : m ≠ 0) :
    ∃ pre last, natToBytesLE m = pre ++ [last] ∧
      last ≠ 0 ∧ last < 256 ∧ (∀ x ∈ pre, x < 256) ∧
      bytesToNatLE pre + last * 256 ^ pre.length = m := by
  induction m using Nat.strong_induction_on with
  | _ m ih =>
    rcases Nat.lt_or_ge m 256 with hm | hm
    · refine ⟨[], m, ?_, h, hm, by simp, by simp [bytesToNatLE]⟩
      rw [natToBytesLE_succ m h]
      have h256 : m / 256 = 0 := Nat.div_eq_of_lt hm
      have hmod : m % 256 = m := Nat.mod_eq_of_lt hm
      simp [h256, hmod, natToBytesLE_zero]
    · have hq : m / 256 ≠ 0 := by
        intro hq0; omega
      obtain ⟨pre', last, heq, hlast0, hlast256, hpre', hsum⟩ :=
        ih (m / 256) (by omega) hq
      refine ⟨m % 256 :: pre', last, ?_, hlast0, hlast256, ?_, ?_⟩
      · rw [natToBytesLE_succ m h, heq]; rfl
      · intro x hx
        rcases List.mem_cons.mp hx with h' | h'
        · omega
        · exact hpre' x h'
      · have key : bytesToNatLE (m % 256 :: pre') + last * 256 ^ (m % 256 :: pre').length
            = m % 256 + 256 * (bytesToNatLE pre' + last * 256 ^ pre'.length) := by
          simp only [bytesToNatLE, List.length_cons, pow_succ]
          ring
        rw [key, hsum]
        omega

/-- A byte-bounded list of length `n` decodes below `256^n`. -/
theorem bytesToNatLE_lt (l : List Nat) (h : ∀ x ∈ l, x < 256) :
    bytesToNatLE l < 256 ^ l.length := by
  induction l with
  | nil => simp [bytesToNatLE]
  | cons b rest ih =>
    have hb : b < 256 := h b (List.mem_cons_self b rest)
    have hr := ih fun x hx => h x (List.mem_cons_of_mem b hx)
    simp only [bytesToNatLE, List.length_cons, pow_succ]
    omega

theorem bytesToNatLE_append_singleton (l : List Nat) (x : Nat) :
    bytesToNatLE (l ++ [x]) = bytesToNatLE l + x * 256 ^ l.length := by
  induction l with
  | nil => simp [bytesToNatLE]
  | cons b rest ih =>
    show b + 256 * bytesToNatLE (rest ++ [x])
        = b + 256 * bytesToNatLE rest + x * 256 ^ (rest.length + 1)
    rw [ih]
    ring

theorem getD_append_at_length (l : List Nat) (x : Nat) (rest : List Nat) (d : Nat) :
    (l ++ x :: rest).getD l.length d = x := by
  induction l with
  | nil => rfl
  | cons b t ih => simpa using ih

theorem getD_append_last (l : List Nat) (x d : Nat) :
    (l ++ [x]).getD ((l ++ [x]).length - 1) d = x := by
  have hlen : (l ++ [x]).length - 1 = l.length := by simp
  rw [hlen]
  exact getD_append_at_length l x [] d

set_option maxRecDepth 4096 in
/-- For byte values, testing the high bit is comparison with 128. -/
theorem fin256_testBit7 : ∀ x : Fin 256, Nat.testBit x.val 7 = decide (128 ≤ x.val) := by
  decide

theorem testBit7_eq_decide (x : Nat) (h : x < 256) :
    Nat.testBit x 7 = decide (128 ≤ x) :=
  fin256_testBit7 ⟨x, h⟩

/-- Setting the high bit of a low byte (`x |= 0x80`) adds 128. -/
theorem fin128_lor : ∀ x : Fin 128, x.val ||| 128 = x.val + 128 := by
  decide

theorem lor_128_eq_add (x : Nat) (h : x < 128) : x ||| 128 = x + 128 :=
  fin128_lor ⟨x, h⟩

theorem testBit_false_of_lt (m k : Nat) (h : m < 2 ^ k) : m.testBit k = false := by
  rw [Nat.testBit_to_div_mod]
  simp [Nat.div_eq_of_lt h]

theorem testBit_add_two_pow (m k : Nat) (h : m < 2 ^ k) : (m + 2 ^ k).testBit k = true := by
  rw [Nat.testBit_to_div_mod]
  have hpos : 0 < 2 ^ k := Nat.pos_pow_of_pos k (by norm_num)
  have hdiv : (m + 2 ^ k) / 2 ^ k = 1 := by
    rw [Nat.add_div_right m hpos, Nat.div_eq_of_lt h]
  simp [hdiv]

/-- For `m < 2^(k+1)`, bit `k` is set exactly when `2^k ≤ m`. -/
theorem testBit_top_iff (m k : Nat) (h : m < 2 ^ (k + 1)) :
    m.testBit k = decide (2 ^ k ≤ m) := by
  rw [Nat.testBit_to_div_mod]
  rcases Nat.lt_or_ge m (2 ^ k) with h' | h'
  · simp [Nat.div_eq_of_lt h', Nat.not_le.mpr h']
  · have hpos : 0 < 2 ^ k := Nat.pos_pow_of_pos k (by norm_num)
    have hm2 : m < 2 ^ k * 2 := by
      have : 2 ^ (k + 1) = 2 ^ k * 2 := by ring
      omega
    have h1 : 1 ≤ m / 2 ^ k := (Nat.one_le_div_iff hpos).mpr h'
    have h2 : m / 2 ^ k < 2 := Nat.div_lt_of_lt_mul hm2
    have hdiv : m / 2 ^ k = 1 := by omega
    simp [hdiv, h']

/-- Errors of the Script Number parser (`ScriptNumberError` in common.ts). -/
inductive ScriptNumberError where
  | outOfRange
  | requiresMinimal
deriving DecidableEq

/-- `parseBytesAsScriptNumber` from common.ts.

Byte-level operations are rendered arithmetically, exactly as they behave on
`Uint8Array` contents (values below 256):
* `x & 0b0111_1111` is `x % 128` (mask `2^7 - 1`, an identity for every `Nat`);
* `(x & 0b1000_0000) !== 0` is `x.testBit 7`;
* for length 1 the source reads `bytes[-1]` (undefined) as the second-most
  significant byte, but the `bytes.length <= 1` disjunct short-circuits, so the
  default value here is never consulted;
* the negative branch computes `result & ~(0x80 << (8*(len-1)))`, clearing the
  sign bit at position `8*len - 1`; on `Uint8Array` contents `result` has no
  bits above that position, so the JS 32-bit complement mask at length 4 agrees
  with the single-bit clear rendered here. -/
def parseBytesAsScriptNumber (bytes : List Nat) : Except ScriptNumberError Int :=
  if bytes.length = 0 then .ok 0
  else if bytes.length > 4 then .error .outOfRange
  else
    let mostSignificantByte := bytes.getD (bytes.length - 1) 0
    let secondMostSignificantByte := bytes.getD (bytes.length - 2) 0
    if mostSignificantByte % 128 = 0 ∧
        (bytes.length ≤ 1 ∨ secondMostSignificantByte.testBit 7 = false) then
      .error .requiresMinimal
    else
      let result := bytesToNatLE bytes
      if mostSignificantByte.testBit 7 then
        let signBitPosition := 8 * bytes.length - 1
        .ok (-(((if result.testBit signBitPosition then result - 2 ^ signBitPosition
                else result) : Nat) : Int))
      else .ok (result : Int)

/-- `bigIntToScriptNumber` from common.ts: little-endian bytes of `|n|`
(`natToBytesLE` renders the `while (remaining > 0)` loop), then either append a
sign byte when the top byte already uses bit 7, or fold the sign into the top
byte (`bytes[bytes.length - 1] |= 0x80`). -/
def bigIntToScriptNumber (integer : Int) : List Nat :=
  if integer = 0 then []
  else
    let isNegative := integer < 0
    let bytes := natToBytesLE integer.natAbs
    let lastByte := bytes.getD (bytes.length - 1) 0
    if lastByte.testBit 7 then
      bytes ++ [if isNegative then 128 else 0]
    else if isNegative then
      bytes.dropLast ++ [lastByte ||| 128]
    else bytes

/-- `stackElementIsTruthy` (CastToBool) from common.ts: scan for the first
nonzero byte; it witnesses truthiness unless it is a trailing `0x80`
("negative zero"). -/
def stackElementIsTruthy : List Nat → Bool
  | [] => false
  | b :: rest =>
    if b ≠ 0 then
      if rest = [] ∧ b = 128 then false else true
    else stackElementIsTruthy rest

/-- `booleanToScriptNumber` from common.ts. -/
def booleanToScriptNumber (value : Bool) : List Nat :=
  if value then bigIntToScriptNumber 1 else bigIntToScriptNumber 0

/-- Evaluation of the parser once the three error guards are known to fail. -/
theorem parse_eval (bytes : List Nat) (h0 : ¬ bytes.length = 0) (h4 : ¬ bytes.length > 4)
    (hmin : ¬(bytes.getD (bytes.length - 1) 0 % 128 = 0 ∧
      (bytes.length ≤ 1 ∨ (bytes.getD (bytes.length - 2) 0).testBit 7 = false))) :
    parseBytesAsScriptNumber bytes =
      if (bytes.getD (bytes.length - 1) 0).testBit 7 then
        .ok (-(((if (bytesToNatLE bytes).testBit (8 * bytes.length - 1) then
            bytesToNatLE bytes - 2 ^ (8 * bytes.length - 1) else bytesToNatLE bytes) : Nat) : Int))
      else .ok ((bytesToNatLE bytes : Nat) : Int) := by
  simp only [parseBytesAsScriptNumber]
  rw [if_neg h0, if_neg h4, if_neg hmin]

/-- C1: for every integer `n` with `|n| ≤ 2^31 − 1`, parsing the Script Number
encoding of `n` returns `n`; the codec round-trips over its whole parse range,
including 0 (the empty array) and all negative values. -/
theorem c1_scriptNumber_roundtrip (n : Int) (hrange : n.natAbs ≤ 2 ^ 31 - 1) :
    parseBytesAsScriptNumber (bigIntToScriptNumber n) = .ok n := by
  rcases eq_or_ne n 0 with rfl | hn0
  · rfl
  have hm0 : n.natAbs ≠ 0 := fun h => hn0 (Int.natAbs_eq_zero.mp h)
  obtain ⟨pre, last, heq, hlast0, hlast256, hpre, hsum⟩ :=
    natToBytesLE_structure n.natAbs hm0
  have hpreLt : bytesToNatLE pre < 256 ^ pre.length := bytesToNatLE_lt pre hpre
  have hpow : ∀ p : Nat, (256 : Nat) ^ p = 2 ^ (8 * p) := fun p => by
    rw [show (256 : Nat) = 2 ^ 8 by norm_num, ← pow_mul]
  have hplen : pre.length ≤ 3 := by
    by_contra hgt
    have h4 : 4 ≤ pre.length := by omega
    have hmono : (256 : Nat) ^ 4 ≤ 256 ^ pre.length := Nat.pow_le_pow_right (by norm_num) h4
    have h1 : 256 ^ pre.length ≤ last * 256 ^ pre.length :=
      Nat.le_mul_of_pos_left _ (by omega)
    norm_num at hmono
    omega
  have hbytes_all : ∀ x ∈ pre ++ [last], x < 256 := by
    intro x hx
    rcases List.mem_append.mp hx with h | h
    · exact hpre x h
    · simp at h; omega
  have hfull : bytesToNatLE (pre ++ [last]) = n.natAbs := by
    rw [bytesToNatLE_append_singleton]; exact hsum
  have hmLt : n.natAbs < 256 ^ (pre.length + 1) := by
    have h := bytesToNatLE_lt (pre ++ [last]) hbytes_all
    rw [hfull] at h
    simpa using h
  have hlastget : (pre ++ [last]).getD ((pre ++ [last]).length - 1) 0 = last :=
    getD_append_last pre last 0
  have henc : bigIntToScriptNumber n =
      (if last.testBit 7 then (pre ++ [last]) ++ [if n < 0 then 128 else 0]
       else if n < 0 then (pre ++ [last]).dropLast ++ [last ||| 128]
       else pre ++ [last]) := by
    simp only [bigIntToScriptNumber, if_neg hn0]
    rw [heq, hlastget]
  rw [henc, testBit7_eq_decide last hlast256]
  rcases Nat.lt_or_ge last 128 with hlast128 | hlast128
  · -- top byte of the magnitude leaves the sign bit free
    rw [if_neg (by simp [Nat.not_le.mpr hlast128])]
    rcases hn0.lt_or_lt with hneg | hpos
    · -- negative: sign folded into the top byte
      rw [if_pos hneg]
      have hdrop : (pre ++ [last]).dropLast = pre := by simp
      rw [hdrop, lor_128_eq_add last hlast128]
      have hlen : (pre ++ [last + 128]).length = pre.length + 1 := by simp
      have hmsb : (pre ++ [last + 128]).getD ((pre ++ [last + 128]).length - 1) 0
          = last + 128 := getD_append_last pre (last + 128) 0
      have hval : bytesToNatLE (pre ++ [last + 128])
          = n.natAbs + 2 ^ (8 * pre.length + 7) := by
        rw [bytesToNatLE_append_singleton]
        have h128 : (128 : Nat) * 256 ^ pre.length = 2 ^ (8 * pre.length + 7) := by
          rw [hpow pre.length, show (128 : Nat) = 2 ^ 7 by norm_num,
            show 8 * pre.length + 7 = 7 + 8 * pre.length by ring, pow_add]
        have : (last + 128) * 256 ^ pre.length
            = last * 256 ^ pre.length + 128 * 256 ^ pre.length := by ring
        rw [this, h128]
        omega
      have hmlt : n.natAbs < 2 ^ (8 * pre.length + 7) := by
        have : n.natAbs < 128 * 256 ^ pre.length := by
          have h1 : last * 256 ^ pre.length ≤ 127 * 256 ^ pre.length :=
            Nat.mul_le_mul_right _ (by omega)
          have h2 : 128 * 256 ^ pre.length = 127 * 256 ^ pre.length + 256 ^ pre.length := by
            ring
          omega
        have h128 : (128 : Nat) * 256 ^ pre.length = 2 ^ (8 * pre.length + 7) := by
          rw [hpow pre.length, show (128 : Nat) = 2 ^ 7 by norm_num,
            show 8 * pre.length + 7 = 7 + 8 * pre.length by ring, pow_add]
        omega
      rw [parse_eval (pre ++ [last + 128])
        (by simp) (by simp; omega)
        (by
          rw [hmsb, hlen]
          intro hcontra
          have : (last + 128) % 128 = last := by omega
          omega)]
      rw [hmsb, testBit7_eq_decide (last + 128) (by omega), if_pos (by simp)]
      rw [hlen, hval]
      have hbit : 8 * (pre.length + 1) - 1 = 8 * pre.length + 7 := by omega
      rw [hbit, if_pos (testBit_add_two_pow _ _ hmlt)]
      have : n.natAbs + 2 ^ (8 * pre.length + 7) - 2 ^ (8 * pre.length + 7) = n.natAbs := by
        omega
      rw [this]
      exact congrArg Except.ok (by omega)
    · -- positive: plain magnitude bytes
      rw [if_neg (by omega)]
      rw [parse_eval (pre ++ [last])
        (by simp) (by simp; omega)
        (by
          rw [hlastget]
          intro hcontra
          have : last % 128 = last := Nat.mod_eq_of_lt hlast128
          omega)]
      rw [hlastget, testBit7_eq_decide last hlast256,
        if_neg (by simp [Nat.not_le.mpr hlast128]), hfull]
      exact congrArg Except.ok (by omega)
  · -- top byte of the magnitude already uses bit 7: a sign byte is appended
    rw [if_pos (by simp [hlast128])]
    have hp2 : pre.length ≤ 2 := by
      by_contra hgt
      have hl3 : pre.length = 3 := by omega
      rw [hl3] at hsum
      norm_num at hsum
      omega
    rcases hn0.lt_or_lt with hneg | hpos
    · -- negative: append the 0x80 sign byte
      rw [if_pos hneg]
      have hlen : ((pre ++ [last]) ++ [128]).length = pre.length + 2 := by simp
      have hmsb : ((pre ++ [last]) ++ [128]).getD (((pre ++ [last]) ++ [128]).length - 1) 0
          = 128 := getD_append_last (pre ++ [last]) 128 0
      have hsmsb : ((pre ++ [last]) ++ [128]).getD (((pre ++ [last]) ++ [128]).length - 2) 0
          = last := by
        rw [hlen, List.append_assoc]
        have : pre.length + 2 - 2 = pre.length := by omega
        rw [this]
        exact getD_append_at_length pre last [128] 0
      have hval : bytesToNatLE ((pre ++ [last]) ++ [128])
          = n.natAbs + 2 ^ (8 * pre.length + 15) := by
        rw [bytesToNatLE_append_singleton, hfull]
        have : (128 : Nat) * 256 ^ (pre ++ [last]).length = 2 ^ (8 * pre.length + 15) := by
          have hl : (pre ++ [last]).length = pre.length + 1 := by simp
          rw [hl, hpow (pre.length + 1), show (128 : Nat) = 2 ^ 7 by norm_num,
            show 8 * pre.length + 15 = 7 + 8 * (pre.length + 1) by ring, pow_add]
        omega
      have hmlt : n.natAbs < 2 ^ (8 * pre.length + 15) := by
        have h8 : (256 : Nat) ^ (pre.length + 1) = 2 ^ (8 * (pre.length + 1)) :=
          hpow (pre.length + 1)
        have hle : (2 : Nat) ^ (8 * (pre.length + 1)) ≤ 2 ^ (8 * pre.length + 15) :=
          Nat.pow_le_pow_right (by norm_num) (by omega)
        omega
      rw [parse_eval ((pre ++ [last]) ++ [128])
        (by simp) (by simp only [List.length_append, List.length_cons, List.length_nil]; omega)
        (by
          rw [hmsb, hsmsb, hlen, testBit7_eq_decide last hlast256]
          intro hcontra
          rcases hcontra.2 with h | h
          · omega
          · simp at h; omega)]
      rw [hmsb, if_pos (show Nat.testBit 128 7 = true by decide), hlen, hval]
      have hbit : 8 * (pre.length + 2) - 1 = 8 * pre.length + 15 := by omega
      rw [hbit, if_pos (testBit_add_two_pow _ _ hmlt)]
      have hsub : n.natAbs + 2 ^ (8 * pre.length + 15) - 2 ^ (8 * pre.length + 15)
          = n.natAbs := by omega
      rw [hsub]
      exact congrArg Except.ok (by omega)
    · -- positive: append the 0x00 padding byte
      rw [if_neg (by omega)]
      have hlen : ((pre ++ [last]) ++ [0]).length = pre.length + 2 := by simp
      have hmsb : ((pre ++ [last]) ++ [0]).getD (((pre ++ [last]) ++ [0]).length - 1) 0
          = 0 := getD_append_last (pre ++ [last]) 0 0
      have hsmsb : ((pre ++ [last]) ++ [0]).getD (((pre ++ [last]) ++ [0]).length - 2) 0
          = last := by
        rw [hlen, List.append_assoc]
        have h2 : pre.length + 2 - 2 = pre.length := by omega
        rw [h2]
        exact getD_append_at_length pre last [0] 0
      have hval : bytesToNatLE ((pre ++ [last]) ++ [0]) = n.natAbs := by
        rw [bytesToNatLE_append_singleton, hfull]
        omega
      rw [parse_eval ((pre ++ [last]) ++ [0])
        (by simp) (by simp only [List.length_append, List.length_cons, List.length_nil]; omega)
        (by
          rw [hmsb, hsmsb, hlen, testBit7_eq_decide last hlast256]
          intro hcontra
          rcases hcontra.2 with h | h
          · omega
          · simp at h; omega)]
      rw [hmsb, if_neg (show ¬ Nat.testBit 0 7 = true by decide), hval]
      exact congrArg Except.ok (by omega)

theorem getD_mem (l : List Nat) (i d : Nat) (h : i < l.length) : l.getD i d ∈ l := by
  induction l generalizing i with
  | nil => simp at h
  | cons b t ih =>
    cases i with
    | zero => exact List.mem_cons_self b t
    | succ j =>
      rw [List.getD_cons_succ]
      exact List.mem_cons_of_mem b (ih j (by simpa using h))

/-- The spec's non-minimality condition, written from its words: the top
byte's low 7 bits are all zero, and either the array is a single byte or the
second-most-significant byte's high bit is clear. -/
def scriptNumNonMinimal (bytes : List Nat) : Prop :=
  bytes.getD (bytes.length - 1) 0 % 128 = 0 ∧
    (bytes.length ≤ 1 ∨ bytes.getD (bytes.length - 2) 0 < 128)

instance (bytes : List Nat) : Decidable (scriptNumNonMinimal bytes) := by
  unfold scriptNumNonMinimal
  infer_instance

/-- The value the spec ascribes to a well-formed Script Number, written from
its words: the little-endian magnitude with the sign bit cleared, negated
exactly when the top byte's 0x80 bit is set. -/
def scriptNumSpecValue (bytes : List Nat) : Int :=
  let magnitude := bytesToNatLE bytes
  if 128 ≤ bytes.getD (bytes.length - 1) 0 then
    -((magnitude % 2 ^ (8 * bytes.length - 1) : Nat) : Int)
  else (magnitude : Int)

/-- C2: the parser classifies every byte-valued input exactly as specified:
empty parses to 0; longer than 4 bytes is `OutOfRange`; a non-empty input of
at most 4 bytes is `RequiresMinimal` exactly when the spec's non-minimality
condition holds; otherwise it yields the signed little-endian magnitude. -/
theorem c2_parse_classification (bytes : List Nat) (hb : ∀ x ∈ bytes, x < 256) :
    (bytes = [] → parseBytesAsScriptNumber bytes = .ok 0) ∧
    (4 < bytes.length → parseBytesAsScriptNumber bytes = .error .outOfRange) ∧
    (bytes ≠ [] → bytes.length ≤ 4 →
      ((parseBytesAsScriptNumber bytes = .error .requiresMinimal ↔
          scriptNumNonMinimal bytes) ∧
        (¬ scriptNumNonMinimal bytes →
          parseBytesAsScriptNumber bytes = .ok (scriptNumSpecValue bytes)))) := by
  refine ⟨fun h => by subst h; rfl, fun h => ?_, fun hne hlen4 => ?_⟩
  · simp only [parseBytesAsScriptNumber]
    rw [if_neg (by omega), if_pos (by omega)]
  have hlen1 : 1 ≤ bytes.length := by
    cases bytes with
    | nil => exact absurd rfl hne
    | cons b t => simp
  have hmsb256 : bytes.getD (bytes.length - 1) 0 < 256 :=
    hb _ (getD_mem bytes (bytes.length - 1) 0 (by omega))
  have hcondIff : (bytes.getD (bytes.length - 1) 0 % 128 = 0 ∧
      (bytes.length ≤ 1 ∨ (bytes.getD (bytes.length - 2) 0).testBit 7 = false)) ↔
      scriptNumNonMinimal bytes := by
    unfold scriptNumNonMinimal
    rcases Nat.lt_or_ge bytes.length 2 with h2 | h2
    · constructor
      · rintro ⟨h, _⟩; exact ⟨h, Or.inl (by omega)⟩
      · rintro ⟨h, _⟩; exact ⟨h, Or.inl (by omega)⟩
    · have hsmsb256 : bytes.getD (bytes.length - 2) 0 < 256 :=
        hb _ (getD_mem bytes (bytes.length - 2) 0 (by omega))
      rw [testBit7_eq_decide _ hsmsb256]
      constructor
      · rintro ⟨h, hd⟩
        refine ⟨h, ?_⟩
        rcases hd with hd | hd
        · exact Or.inl hd
        · right; simpa using hd
      · rintro ⟨h, hd⟩
        refine ⟨h, ?_⟩
        rcases hd with hd | hd
        · exact Or.inl hd
        · right; simpa using hd
  by_cases hcond : scriptNumNonMinimal bytes
  · constructor
    · constructor
      · intro _; exact hcond
      · intro _
        simp only [parseBytesAsScriptNumber]
        rw [if_neg (by omega), if_neg (by omega), if_pos (hcondIff.mpr hcond)]
    · intro h; exact absurd hcond h
  · have hresult : parseBytesAsScriptNumber bytes =
        if (bytes.getD (bytes.length - 1) 0).testBit 7 then
          .ok (-(((if (bytesToNatLE bytes).testBit (8 * bytes.length - 1) then
              bytesToNatLE bytes - 2 ^ (8 * bytes.length - 1) else bytesToNatLE bytes) :
              Nat) : Int))
        else .ok ((bytesToNatLE bytes : Nat) : Int) :=
      parse_eval bytes (by omega) (by omega) (fun h => hcond (hcondIff.mp h))
    have hresLt : bytesToNatLE bytes < 2 ^ (8 * bytes.length - 1 + 1) := by
      have h1 := bytesToNatLE_lt bytes hb
      have h2 : (256 : Nat) ^ bytes.length = 2 ^ (8 * bytes.length) := by
        rw [show (256 : Nat) = 2 ^ 8 by norm_num, ← pow_mul]
      have h3 : 8 * bytes.length - 1 + 1 = 8 * bytes.length := by omega
      rw [h3]
      omega
    constructor
    · constructor
      · intro hp
        rw [hresult] at hp
        rcases Bool.eq_false_or_eq_true ((bytes.getD (bytes.length - 1) 0).testBit 7) with
          ht | ht <;> rw [ht] at hp <;> simp at hp
      · intro h; exact absurd h hcond
    · intro _
      rw [hresult]
      unfold scriptNumSpecValue
      rw [testBit7_eq_decide _ hmsb256]
      by_cases hneg : 128 ≤ bytes.getD (bytes.length - 1) 0
      · rw [if_pos (by simpa using hneg), if_pos hneg]
        refine congrArg Except.ok (congrArg Neg.neg (congrArg _ ?_))
        rw [testBit_top_iff _ _ hresLt]
        by_cases hbig : 2 ^ (8 * bytes.length - 1) ≤ bytesToNatLE bytes
        · rw [if_pos (by simpa using hbig)]
          have hm : bytesToNatLE bytes % 2 ^ (8 * bytes.length - 1)
              = bytesToNatLE bytes - 2 ^ (8 * bytes.length - 1) := by
            rw [Nat.mod_eq_sub_mod hbig, Nat.mod_eq_of_lt (by omega)]
          omega
        · rw [if_neg (by simpa using hbig)]
          rw [Nat.mod_eq_of_lt (by omega)]
      · rw [if_neg (by simpa using hneg), if_neg hneg]

end BitcoinTs

namespace BitcoinTs

/-! ## utils.ts: little-endian integer and VarInt codecs -/

/-- `bigIntToBinUintLE` from utils.ts: fixed-width little-endian bytes; each
loop step stores the low byte (the `Uint8Array` store truncates `Number(value)`
modulo 256) and shifts the value right by 8 bits. -/
def bigIntToBinUintLE : Nat → Nat → List Nat
  | _, 0 => []
  | value, bytes + 1 => value % 256 :: bigIntToBinUintLE (value / 256) bytes

/-- `binToBigIntUintLE` from utils.ts: `value += bin[offset] * 2^(8*offset)`
for `offset < bytes`; the loop reads exactly the first `bytes` entries, which
is the little-endian sum over `bin.take bytes`. -/
def binToBigIntUintLE (bin : List Nat) (bytes : Nat) : Nat :=
  bytesToNatLE (bin.take bytes)

/-- `varIntPrefixToSize` from utils.ts. -/
def varIntPrefixToSize (firstByte : Nat) : Nat :=
  if firstByte = 0xfd then 2
  else if firstByte = 0xfe then 4
  else if firstByte = 0xff then 8
  else 1

/-- Result record of `readBitcoinVarInt`. -/
structure VarIntRead where
  nextOffset : Nat
  value : Nat
deriving DecidableEq

/-- `readBitcoinVarInt` from utils.ts. Note that the source reads
`bin.subarray(offset, offset + bytes)` — a window that starts at the prefix
byte itself. -/
def readBitcoinVarInt (bin : List Nat) (offset : Nat) : VarIntRead :=
  let bytes := varIntPrefixToSize (bin.getD offset 0)
  { nextOffset := offset + bytes
    value := binToBigIntUintLE ((bin.drop offset).take bytes) bytes }

/-- `bigIntToBitcoinVarInt` from utils.ts. -/
def bigIntToBitcoinVarInt (value : Nat) : List Nat :=
  if value ≤ 0xfc then bigIntToBinUintLE value 1
  else if value ≤ 0xffff then 0xfd :: bigIntToBinUintLE value 2
  else if value ≤ 0xffffffff then 0xfe :: bigIntToBinUintLE value 4
  else 0xff :: bigIntToBinUintLE value 8

/-! ## Program state and common operators -/

/-- `CommonAuthenticationError` from common.ts. -/
inductive CommonAuthenticationError where
  | emptyStack
  | malformedPush
  | nonMinimalPush
  | exceedsMaximumPush
  | unknownOpcode
  | failedVerify
  | calledReturn
  | invalidPublicKeyEncoding
  | invalidSignatureEncoding
deriving DecidableEq

/-- The Bitcoin Cash program state (`BitcoinCashAuthenticationProgramState`):
`CommonProgramInternalState` (`ip`, `script`, `stack`, `error`,
`lastCodeSeparator`) together with `CommonProgramExternalState` (transaction
and network fields). The stack's top element is the head of the list (JS
`push`/`pop` act on the array's end). -/
structure CommonState where
  ip : Nat
  script : List Nat
  stack : List (List Nat)
  error : Option CommonAuthenticationError
  lastCodeSeparator : Int
  blockHeight : Nat
  blockTime : Nat
  version : Nat
  locktime : Nat
  outpointIndex : Nat
  outpointValue : Nat
  sequenceNumber : Nat
  correspondingOutputHash : List Nat
  outpointTransactionHash : List Nat
  transactionOutpointsHash : List Nat
  transactionOutputsHash : List Nat
  transactionSequenceNumbersHash : List Nat
deriving DecidableEq

/-- `applyError` from common.ts: spread the state and set `error`. -/
def applyError (error : CommonAuthenticationError) (state : CommonState) : CommonState :=
  { state with error := some error }

/-- JS `Array.prototype.pop` on the stack: the popped element (or none for
`undefined`) together with the stack after the pop. -/
def popStack : List (List Nat) → Option (List Nat) × List (List Nat)
  | [] => (none, [])
  | top :: rest => (some top, rest)

/-- `cloneStack` from common.ts: rebuild the stack, copying each element's
bytes with `element.slice()`; at the value level each element is unchanged. -/
def cloneStack (stack : List (List Nat)) : List (List Nat) :=
  stack.map (fun element => element)

theorem cloneStack_eq (stack : List (List Nat)) : cloneStack stack = stack :=
  List.map_id stack

/-- `areEqual` from bitwise.ts: equal lengths and equal bytes at every index,
i.e. list equality. -/
def areEqual (a b : List Nat) : Bool :=
  a == b

/-- The operation of `opEqual` (bitwise.ts): pop two elements (both pops
happen before the `undefined` check), error on a missing element, otherwise
push Script Number 1 or 0. -/
def opEqualOperation (state : CommonState) : CommonState :=
  let p1 := popStack state.stack
  let p2 := popStack p1.2
  match p1.1, p2.1 with
  | some element1, some element2 =>
    { state with stack := booleanToScriptNumber (areEqual element1 element2) :: p2.2 }
  | _, _ => applyError .emptyStack { state with stack := p2.2 }

/-- The operation of `opVerify` (flow-control.ts). -/
def opVerifyOperation (state : CommonState) : CommonState :=
  let p := popStack state.stack
  match p.1 with
  | none => applyError .emptyStack { state with stack := p.2 }
  | some element =>
    if stackElementIsTruthy element then { state with stack := p.2 }
    else applyError .failedVerify { state with stack := p.2 }

/-- The operation of `opEqualVerify`: `verify(equal(state))`. -/
def opEqualVerifyOperation (state : CommonState) : CommonState :=
  opVerifyOperation (opEqualOperation state)

/-- The operation of `opDup` (stack.ts): error when `stack.length < 1`, i.e.
on the empty stack; otherwise push a byte-copy of the top element. -/
def opDupOperation (state : CommonState) : CommonState :=
  match state.stack with
  | [] => applyError .emptyStack state
  | element :: rest => { state with stack := element :: element :: rest }

/-- The sighash-type/DER split returned by `decodeBitcoinSignature`
(encoding.ts, an external collaborator of crypto.ts). -/
structure DecodedSignature where
  signingSerializationType : List Nat
  signature : List Nat

/-- The collaborators crypto.ts imports: hash and signature providers
(crypto/crypto.ts), the encoding checks (encoding.ts) and the BCH sighash
builder (signing-serialization.ts). They are not under the embedded sources,
so the operators are parameterized over them, exactly as the source functions
are parameterized over `sha256`/`ripemd160`/`secp256k1`. -/
structure CryptoProviders where
  sha256 : List Nat → List Nat
  ripemd160 : List Nat → List Nat
  secp256k1Verify : List Nat → List Nat → List Nat → Bool
  isValidPublicKeyEncoding : List Nat → Bool
  isValidSignatureEncoding : List Nat → Bool
  decodeBitcoinSignature : List Nat → DecodedSignature
  generateBitcoinCashSigningSerialization :
    Nat → List Nat → List Nat → List Nat → Nat → List Nat → Nat → Nat →
      List Nat → List Nat → Nat → List Nat → List Nat

/-- The operation of `opHash160` (crypto.ts). -/
def opHash160Operation (c : CryptoProviders) (state : CommonState) : CommonState :=
  let p := popStack state.stack
  match p.1 with
  | none => applyError .emptyStack { state with stack := p.2 }
  | some element =>
    { state with stack := c.ripemd160 (c.sha256 element) :: p.2 }

/-- The operation of `opCheckSig` (crypto.ts): pop `publicKey` then
`bitcoinEncodedSignature`; check that neither is `undefined`, then public-key
encoding, then signature encoding; build
`scriptCode = VarInt(len) || script.subarray(lastCodeSeparator + 1)`, the BCH
signing serialization and the double-SHA256 digest; push the boolean
verification outcome as a Script Number. -/
def opCheckSigOperation (c : CryptoProviders) (state : CommonState) : CommonState :=
  let p1 := popStack state.stack
  let p2 := popStack p1.2
  match p1.1, p2.1 with
  | some publicKey, some bitcoinEncodedSignature =>
    if ¬ c.isValidPublicKeyEncoding publicKey then
      applyError .invalidPublicKeyEncoding { state with stack := p2.2 }
    else if ¬ c.isValidSignatureEncoding bitcoinEncodedSignature then
      applyError .invalidSignatureEncoding { state with stack := p2.2 }
    else
      let script := state.script.drop (state.lastCodeSeparator + 1).toNat
      let scriptCode := bigIntToBitcoinVarInt script.length ++ script
      let decoded := c.decodeBitcoinSignature bitcoinEncodedSignature
      let serialization := c.generateBitcoinCashSigningSerialization
        state.version state.transactionOutpointsHash
        state.transactionSequenceNumbersHash state.outpointTransactionHash
        state.outpointIndex scriptCode state.outpointValue state.sequenceNumber
        state.correspondingOutputHash state.transactionOutputsHash
        state.locktime decoded.signingSerializationType
      let digest := c.sha256 (c.sha256 serialization)
      let verified := c.secp256k1Verify decoded.signature publicKey digest
      { state with stack := booleanToScriptNumber verified :: p2.2 }
  | _, _ => applyError .emptyStack { state with stack := p2.2 }

/-! ## The push opcode family (push.ts) -/

/-- The operation of `opPushNumber`: push the Script Number `value`. -/
def opPushNumberOperation (value : Int) (state : CommonState) : CommonState :=
  { state with stack := bigIntToScriptNumber value :: state.stack }

/-- The operation of `opPushDataConstant` (`OP_DATA_n`): require
`ip + value ≤ script.length`, push `script.slice(ip, ip + value)` and advance
`ip`. -/
def opPushDataConstantOperation (value : Nat) (state : CommonState) : CommonState :=
  let pushStart := state.ip
  let pushEnd := state.ip + value
  if state.script.length < pushEnd then applyError .malformedPush state
  else
    { state with
      stack := (state.script.drop pushStart).take value :: state.stack
      ip := pushEnd }

/-- `readLittleEndianLength`: the `DataView` over the script's buffer reads
`lengthBytes` bytes at `ip` as a little-endian unsigned integer. -/
def readLittleEndianLength (script : List Nat) (ip lengthBytes : Nat) : Nat :=
  bytesToNatLE ((script.drop ip).take lengthBytes)

/-- The operation produced by `createPushDataOperator` (`OP_PUSHDATA1/2/4`),
with the source's guard order: missing length field → `malformedPush`; data
running past the script → `malformedPush`; `length < minimum` →
`nonMinimalPush`; `length > maximum` → `exceedsMaximumPush`; otherwise push
and set `ip`. -/
def createPushDataOperation (lengthBytes minimum maximum : Nat)
    (state : CommonState) : CommonState :=
  let pushBegin := state.ip + lengthBytes
  if state.script.length < pushBegin then applyError .malformedPush state
  else
    let length := readLittleEndianLength state.script state.ip lengthBytes
    if state.script.length < pushBegin + length then applyError .malformedPush state
    else if length < minimum then applyError .nonMinimalPush state
    else if length > maximum then applyError .exceedsMaximumPush state
    else
      { state with
        stack := (state.script.drop pushBegin).take length :: state.stack
        ip := pushBegin + length }

/-- `opPushData1`: width 1; the source passes
`PushOperationConstants.maximumPushDataConstant` (75) as the minimum. -/
def opPushData1Operation : CommonState → CommonState :=
  createPushDataOperation 1 75 520

/-- `opPushData2`: width 2; minimum `highestRepresentableNumberIn(1)` = 256. -/
def opPushData2Operation : CommonState → CommonState :=
  createPushDataOperation 2 256 520

/-- `opPushData4`: width 4; minimum `highestRepresentableNumberIn(2)` = 65536. -/
def opPushData4Operation : CommonState → CommonState :=
  createPushDataOperation 4 65536 520

end BitcoinTs

namespace BitcoinTs

/-- A concrete state used by the closed evaluation theorems. -/
def baseState : CommonState :=
  { ip := 0
    script := []
    stack := []
    error := none
    lastCodeSeparator := -1
    blockHeight := 0
    blockTime := 0
    version := 0
    locktime := 0
    outpointIndex := 0
    outpointValue := 0
    sequenceNumber := 0
    correspondingOutputHash := []
    outpointTransactionHash := []
    transactionOutpointsHash := []
    transactionOutputsHash := []
    transactionSequenceNumbersHash := [] }

/-- C5: for every program state, the `OP_PUSHDATA4` operation sets one of the
three push errors; the success branch is unreachable because its minimum
length 65536 exceeds its maximum length 520. -/
theorem c5_pushdata4_never_succeeds (state : CommonState) :
    (opPushData4Operation state).error = some .malformedPush ∨
    (opPushData4Operation state).error = some .nonMinimalPush ∨
    (opPushData4Operation state).error = some .exceedsMaximumPush := by
  simp only [opPushData4Operation, createPushDataOperation, applyError]
  split_ifs with h1 h2 h3 h4
  · exact Or.inl rfl
  · exact Or.inl rfl
  · exact Or.inr (Or.inl rfl)
  · exact Or.inr (Or.inr rfl)
  · omega

/-- C4 (failing input): the claim says `OP_PUSHDATA1` rejects every length
below 76 as `NonMinimalPush`, but the code's minimum is the constant 75
(`maximumPushDataConstant`) compared with strict `<`, so a 75-byte
`OP_PUSHDATA1` push — non-minimal, since `OP_DATA_75` suffices — succeeds,
while a 74-byte one errors. The state models execution just after the opcode
byte `0x4c` was consumed (`ip = 1`). -/
theorem c4_pushdata1_boundary_is_75 :
    (opPushData1Operation
      { baseState with ip := 1, script := 0x4c :: 75 :: List.replicate 75 7 }
      = { baseState with
          ip := 77
          script := 0x4c :: 75 :: List.replicate 75 7
          stack := [List.replicate 75 7] }) ∧
    (opPushData1Operation
      { baseState with ip := 1, script := 0x4c :: 74 :: List.replicate 74 7 }).error
      = some .nonMinimalPush := by
  constructor
  · rfl
  · rfl

/-- C6 (failing input): the claim says reading back the VarInt written for v
yields v and advances to the full encoded width, but for `v = 253` the encoder
emits `[0xfd, 0xfd, 0x00]` while the reader — whose subarray starts at the
prefix byte itself — returns value `0xfdfd = 65021` with `nextOffset = 2`
instead of value 253 with `nextOffset = 3`. -/
theorem c6_varint_roundtrip_fails :
    bigIntToBitcoinVarInt 253 = [0xfd, 0xfd, 0x00] ∧
    readBitcoinVarInt (bigIntToBitcoinVarInt 253) 0 = ⟨2, 65021⟩ ∧
    ¬((readBitcoinVarInt (bigIntToBitcoinVarInt 253) 0).value = 253 ∧
      (readBitcoinVarInt (bigIntToBitcoinVarInt 253) 0).nextOffset = 3) := by
  refine ⟨rfl, rfl, ?_⟩
  intro h
  exact absurd h.1 (by decide)

/-- C10: stack-reading operators are not atomic on failure. On a state whose
stack holds exactly one element, `OP_EQUAL` errors with `EmptyStack` and
leaves the stack empty — the lone element was consumed by the first pop and is
not restored; `OP_CHECKSIG` consumes its popped element the same way. -/
theorem c10_failed_pop_consumes (state : CommonState) (element : List Nat)
    (h : state.stack = [element]) :
    (opEqualOperation state).error = some .emptyStack ∧
    (opEqualOperation state).stack = [] ∧
    ∀ c : CryptoProviders,
      (opCheckSigOperation c state).error = some .emptyStack ∧
      (opCheckSigOperation c state).stack = [] := by
  refine ⟨?_, ?_, fun c => ⟨?_, ?_⟩⟩ <;>
    simp [opEqualOperation, opCheckSigOperation, popStack, applyError, h]

/-- Witness for C10 at a concrete one-element stack. -/
theorem c10_witness :
    ({ baseState with stack := [[5]] } : CommonState).stack = [[5]] ∧
    (opEqualOperation { baseState with stack := [[5]] }).error
      = some .emptyStack := by
  have h := c10_failed_pop_consumes { baseState with stack := [[5]] } [5] rfl
  exact ⟨rfl, h.1⟩

end BitcoinTs

namespace BitcoinTs

/-- Witness for C1 at the concrete input −1000. -/
theorem c1_witness :
    ((-1000 : Int).natAbs ≤ 2 ^ 31 - 1) ∧
    parseBytesAsScriptNumber (bigIntToScriptNumber (-1000)) = .ok (-1000) :=
  ⟨by decide, c1_scriptNumber_roundtrip (-1000) (by decide)⟩

/-- Witness for C2 at the concrete input `[0x81]` (the encoding of −1). -/
theorem c2_witness :
    (∀ x ∈ ([129] : List Nat), x < 256) ∧
    (¬ scriptNumNonMinimal [129] →
      parseBytesAsScriptNumber [129] = .ok (scriptNumSpecValue [129])) :=
  ⟨by decide,
    ((c2_parse_classification [129] (by decide)).2.2 (by decide) (by decide)).2⟩

end BitcoinTs

namespace BitcoinTs

/-! ## Rendering helpers (utils.ts `binToHex`, push.ts `pushToAsm`) -/

/-- Lowercase hex digit. -/
def hexChar (n : Nat) : Char :=
  if n < 10 then Char.ofNat (48 + n) else Char.ofNat (87 + n)

/-- Two lowercase hex characters per byte (`binToHex` from utils.ts). -/
def binToHex (bytes : List Nat) : String :=
  bytes.foldl (fun str byte => str ++ String.mk [hexChar (byte / 16 % 16), hexChar (byte % 16)]) ""

/-- `pushToAsm` from push.ts: render `array.slice(begin, end)` as hex, noting
missing bytes when `end` runs past the array (`missingBytes ≤ 0` in JS is
`end ≤ array.length`, which the clamped subtraction preserves). -/
def pushToAsm (array : List Nat) (b e : Nat) : String :=
  let missingBytes := e - array.length
  if e ≤ array.length then
    "0x" ++ binToHex ((array.drop b).take (e - b))
  else
    "0x" ++ binToHex ((array.drop b).take (array.length - b)) ++ "[missing " ++
      toString missingBytes ++ (if missingBytes > 1 then " bytes]" else " byte]")

/-! ## The virtual machine (spec-modelled) and the Bitcoin Cash instruction set -/

/-- A `DebuggingStep` from virtual-machine.ts. -/
structure Step where
  asm : String
  description : String
  state : CommonState
deriving DecidableEq

instance : Inhabited Step := ⟨⟨"", "", baseState⟩⟩

/-- Modelled from the spec: `Operator` of virtual-machine.ts (which is not
under the embedded sources): `asm` and `description` renderings — constant
strings become constant functions — and the state transition. -/
structure Operator where
  asm : CommonState → String
  description : CommonState → String
  operation : CommonState → CommonState

/-- Modelled from the spec: `InstructionSet` of virtual-machine.ts — `before`,
`clone`, `continue` (named `cont`, as `continue` is a reserved word), the
`undefined` fallback operator, and the sparse opcode table. -/
structure InstructionSet where
  before : CommonState → CommonState
  clone : CommonState → CommonState
  cont : CommonState → Bool
  undefinedOperator : Operator
  ops : Nat → Option Operator

/-- Modelled from the spec: dispatch on `script[ip - 1]`, the byte just
consumed by `before`; an out-of-range read or a missing table entry falls back
to the undefined operator. -/
def dispatchedOperator (is : InstructionSet) (state : CommonState) : Operator :=
  match state.script.get? (state.ip - 1) with
  | some opcode =>
    match is.ops opcode with
    | some op => op
    | none => is.undefinedOperator
  | none => is.undefinedOperator

/-- Modelled from the spec: `stepMutate` — apply `before`, then the dispatched
operator's operation. -/
def stepMutate (is : InstructionSet) (state : CommonState) : CommonState :=
  let afterBefore := is.before state
  (dispatchedOperator is afterBefore).operation afterBefore

/-- Modelled from the spec: the debugger's loop — while `continue` holds,
step the working copy and record a step tagged with the operator's `asm` and
`description` evaluated against the post-instruction state, whose snapshot is
a clone. Structural fuel bounds the iterations; since `before` advances `ip`
on every step and `continue` requires `ip < script.length`, a fuel of
`script.length + 1` never runs out for the instruction sets used here. -/
def debugLoop (is : InstructionSet) : Nat → CommonState → List Step
  | 0, _ => []
  | fuel + 1, state =>
    if is.cont state then
      let afterBefore := is.before state
      let op := dispatchedOperator is afterBefore
      let next := op.operation afterBefore
      ⟨op.asm next, op.description next, is.clone next⟩ :: debugLoop is fuel next
    else []

/-- Modelled from the spec: `debug` — clone the caller's state, record the
initial synthetic banner step, then run the loop. -/
def vmDebug (is : InstructionSet) (state : CommonState) (initialDescription : String) :
    List Step :=
  let working := is.clone state
  ⟨"", initialDescription, is.clone working⟩ ::
    debugLoop is (working.script.length + 1) working

/-- The VM interface the program composer consumes
(`AuthenticationVirtualMachine`): its `debug` entry point. -/
structure Vm where
  debug : CommonState → String → List Step

/-- Modelled from the spec: `createAuthenticationVirtualMachine`. -/
def createAuthenticationVirtualMachine (is : InstructionSet) : Vm :=
  ⟨fun state desc => vmDebug is state desc⟩

/-- `undefinedOperator` from common.ts (for a byte the table does not map):
set `error = unknownOpcode`. The renderings read `script[ip - 1]`; the
out-of-range default 0 is only reached when the dispatch itself failed to read
that byte. -/
def undefinedOperator : Operator :=
  { asm := fun state => "OP_UNKNOWN" ++ toString (state.script.getD (state.ip - 1) 0)
    description := fun state =>
      "An undefined or unimplemented opcode (" ++
        toString (state.script.getD (state.ip - 1) 0) ++ ") was called."
    operation := fun state => { state with error := some .unknownOpcode } }

/-- `opPushNumber` from push.ts. -/
def opPushNumber (value : Int) : Operator :=
  { asm := fun _ => "OP_" ++ toString value
    description := fun _ => "Push the Script Number " ++ toString value ++ " onto the stack."
    operation := opPushNumberOperation value }

/-- `opPushDataConstant` from push.ts (`OP_DATA_n`). -/
def opPushDataConstant (value : Nat) : Operator :=
  { asm := fun state =>
      "OP_DATA_" ++ toString value ++ " " ++ pushToAsm state.script state.ip (state.ip + value)
    description := fun _ =>
      "Push the next " ++ (if value = 1 then "byte" else toString value ++ " bytes") ++
        " onto the stack."
    operation := opPushDataConstantOperation value }

/-- `createPushDataOperator` from push.ts: renderings (the `missing` text only
on the first guard, as in `stringResult`) over the variable-push operation. -/
def createPushDataOperator (lengthBytes : Nat) (typeName : String)
    (minimum maximum : Nat) : Operator :=
  { asm := fun state =>
      if state.script.length < state.ip + lengthBytes then
        "OP_PUSHDATA" ++ toString lengthBytes ++ " [missing " ++
          (if lengthBytes = 1 then "byte" else toString lengthBytes ++ " bytes") ++ "]"
      else
        let length := readLittleEndianLength state.script state.ip lengthBytes
        "OP_PUSHDATA" ++ toString lengthBytes ++ " " ++ toString length ++ " " ++
          pushToAsm state.script (state.ip + lengthBytes) (state.ip + lengthBytes + length)
    description := fun state =>
      if state.script.length < state.ip + lengthBytes then
        "Read the next " ++ (if lengthBytes = 1 then "" else "little-endian ") ++ typeName ++
          " (missing) and push that number of bytes onto the stack."
      else
        let length := readLittleEndianLength state.script state.ip lengthBytes
        "Read the next " ++ (if lengthBytes = 1 then "" else "little-endian ") ++ typeName ++
          " (" ++ pushToAsm state.script state.ip (state.ip + lengthBytes) ++
          ") and push that number of bytes (" ++ toString length ++ ") onto the stack."
    operation := createPushDataOperation lengthBytes minimum maximum }

/-- `opPushData1` from push.ts. -/
def opPushData1 : Operator := createPushDataOperator 1 "Uint8" 75 520

/-- `opPushData2` from push.ts. -/
def opPushData2 : Operator := createPushDataOperator 2 "Uint16" 256 520

/-- `opPushData4` from push.ts. -/
def opPushData4 : Operator := createPushDataOperator 4 "Uint32" 65536 520

/-- `opVerify` from flow-control.ts. -/
def opVerify : Operator :=
  { asm := fun _ => "OP_VERIFY"
    description := fun _ =>
      "Pop the top element from the stack and error if it is not truthy."
    operation := opVerifyOperation }

/-- `opDup` from stack.ts. -/
def opDup : Operator :=
  { asm := fun _ => "OP_DUP"
    description := fun _ => "Duplicate the top element on the stack."
    operation := opDupOperation }

/-- `opEqual` from bitwise.ts. -/
def opEqual : Operator :=
  { asm := fun _ => "OP_EQUAL"
    description := fun _ =>
      "Pop the top two elements off the stack and compare them byte-by-byte. If they are the same, push a Script Number 1, otherwise push a Script Number 0."
    operation := opEqualOperation }

/-- `opEqualVerify` from bitwise.ts. -/
def opEqualVerify : Operator :=
  { asm := fun _ => "OP_EQUALVERIFY"
    description := fun _ =>
      "Pop the top two elements off the stack and compare them byte-by-byte. If they are the different, error."
    operation := opEqualVerifyOperation }

/-- `opHash160` from crypto.ts. -/
def opHash160 (c : CryptoProviders) : Operator :=
  { asm := fun _ => "OP_HASH160"
    description := fun _ =>
      "Pop the top element off the stack and pass it through sha256, then ripemd160, pushing the result onto the stack."
    operation := opHash160Operation c }

/-- `opCheckSig` from crypto.ts. -/
def opCheckSig (c : CryptoProviders) : Operator :=
  { asm := fun _ => "OP_CHECKSIG"
    description := fun _ =>
      "Pop the top two elements off the stack. Treat the first as a public key and the second as a signature. If the signature is valid, push a Script Number 1, otherwise push a Script Number 0."
    operation := opCheckSigOperation c }

/-- Modelled from the spec: the opcode numbering of bitcoin-cash-opcodes.ts
(not under the embedded sources): `OP_0 = 0x00`, `OP_DATA_1..75 = 0x01..0x4b`,
`OP_PUSHDATA1/2/4 = 0x4c/0x4d/0x4e`, `OP_1NEGATE = 0x4f`,
`OP_1..OP_16 = 0x51..0x60`, `OP_VERIFY = 0x69`, `OP_DUP = 0x76`,
`OP_EQUAL = 0x87`, `OP_EQUALVERIFY = 0x88`, `OP_HASH160 = 0xa9`,
`OP_CHECKSIG = 0xac`. The push-number operators carry `N = index − 1` over the
published list, so `OP_1NEGATE → −1`, `OP_0 → 0`, `OP_1..16 → 1..16`
(`commonOperators` from common.ts). -/
def bchOps (c : CryptoProviders) : Nat → Option Operator := fun opcode =>
  if opcode = 0x00 then some (opPushNumber 0)
  else if 1 ≤ opcode ∧ opcode ≤ 75 then some (opPushDataConstant opcode)
  else if opcode = 0x4c then some opPushData1
  else if opcode = 0x4d then some opPushData2
  else if opcode = 0x4e then some opPushData4
  else if opcode = 0x4f then some (opPushNumber (-1))
  else if 0x51 ≤ opcode ∧ opcode ≤ 0x60 then some (opPushNumber ((opcode : Int) - 0x50))
  else if opcode = 0x69 then some opVerify
  else if opcode = 0x76 then some opDup
  else if opcode = 0x87 then some opEqual
  else if opcode = 0x88 then some opEqualVerify
  else if opcode = 0xa9 then some (opHash160 c)
  else if opcode = 0xac then some (opCheckSig c)
  else none

/-- `bitcoinCashInstructionSet.before` (bitcoin-cash.ts): advance `ip` past
the opcode byte. -/
def bchBefore (state : CommonState) : CommonState :=
  { state with ip := state.ip + 1 }

/-- `bitcoinCashInstructionSet.clone` (bitcoin-cash.ts): rebuild the record;
the script and every hash are byte-copied with `.slice()`, the stack array is
copied with `stack.slice()` — at this value level that is the same stack; the
reference-level model below exposes the difference. -/
def bchClone (state : CommonState) : CommonState :=
  { error := state.error
    blockHeight := state.blockHeight
    blockTime := state.blockTime
    correspondingOutputHash := state.correspondingOutputHash
    ip := state.ip
    lastCodeSeparator := state.lastCodeSeparator
    locktime := state.locktime
    outpointIndex := state.outpointIndex
    outpointTransactionHash := state.outpointTransactionHash
    outpointValue := state.outpointValue
    script := state.script
    sequenceNumber := state.sequenceNumber
    stack := state.stack
    transactionOutpointsHash := state.transactionOutpointsHash
    transactionOutputsHash := state.transactionOutputsHash
    transactionSequenceNumbersHash := state.transactionSequenceNumbersHash
    version := state.version }

/-- `bitcoinCashInstructionSet.continue`: no error and `ip` within the
script. -/
def bchContinue (state : CommonState) : Bool :=
  decide (state.error = none ∧ state.ip < state.script.length)

/-- `bitcoinCashInstructionSet` (bitcoin-cash.ts). -/
def bitcoinCashInstructionSet (c : CryptoProviders) : InstructionSet :=
  { before := bchBefore
    clone := bchClone
    cont := bchContinue
    undefinedOperator := undefinedOperator
    ops := bchOps c }

end BitcoinTs

namespace BitcoinTs

/-! ## The Bitcoin Cash program composer (bitcoin-cash.ts) -/

/-- `CommonProgramExternalState`: the per-input transaction and network
fields an `AuthenticationProgram` supplies. -/
structure ExternalState where
  blockHeight : Nat
  blockTime : Nat
  version : Nat
  locktime : Nat
  outpointIndex : Nat
  outpointValue : Nat
  sequenceNumber : Nat
  correspondingOutputHash : List Nat
  outpointTransactionHash : List Nat
  transactionOutpointsHash : List Nat
  transactionOutputsHash : List Nat
  transactionSequenceNumbersHash : List Nat
deriving DecidableEq

/-- `AuthenticationProgram` from state.ts. -/
structure AuthenticationProgram where
  lockingScript : List Nat
  state : ExternalState
  unlockingScript : List Nat
deriving DecidableEq

/-- The state object each composer pass builds:
`{ ip: 0, lastCodeSeparator: -1, stack, ...program.state, script }` — the
object literal carries no `error` key, so `error` is `undefined`. -/
def initialState (external : ExternalState) (stack : List (List Nat))
    (script : List Nat) : CommonState :=
  { ip := 0
    lastCodeSeparator := -1
    stack := stack
    error := none
    script := script
    blockHeight := external.blockHeight
    blockTime := external.blockTime
    version := external.version
    locktime := external.locktime
    outpointIndex := external.outpointIndex
    outpointValue := external.outpointValue
    sequenceNumber := external.sequenceNumber
    correspondingOutputHash := external.correspondingOutputHash
    outpointTransactionHash := external.outpointTransactionHash
    transactionOutpointsHash := external.transactionOutpointsHash
    transactionOutputsHash := external.transactionOutputsHash
    transactionSequenceNumbersHash := external.transactionSequenceNumbersHash }

/-- `isPayToScriptHash` from bitcoin-cash.ts: length 23, `OP_HASH160`
`OP_DATA_20` … `OP_EQUAL`. -/
def isPayToScriptHash (lockingScript : List Nat) : Bool :=
  decide (lockingScript.length = 23 ∧ lockingScript.getD 0 0 = 0xa9 ∧
    lockingScript.getD 1 0 = 0x14 ∧ lockingScript.getD 22 0 = 0x87)

/-- `isPushOnly` from bitcoin-cash.ts: every raw byte of the script is below
`OP_16` (0x60). The source carries a TODO noting this is wrong — bytes inside
push operations should not be tested as opcodes. -/
def isPushOnly (script : List Nat) : Bool :=
  script.all fun value => decide (value < 0x60)

/-- `debugBitcoinCashAuthenticationProgram` from bitcoin-cash.ts: run the
unlocking script, return the trace alone if it errored; run the locking
script from the unlocking pass's final stack; when the locking script is the
P2SH template, gate on push-only and non-empty stack, then run the popped top
element as the redeem script (JS `pop()` takes the top — the list head here;
the branch is guarded non-empty). -/
def debugBitcoinCashAuthenticationProgram (vm : Vm)
    (program : AuthenticationProgram) : List Step :=
  let unlockingScriptResult := vm.debug
    (initialState program.state [] program.unlockingScript)
    "Begin unlocking script evaluation."
  let unlockingScriptFinalState := (unlockingScriptResult.getLastD default).state
  if unlockingScriptFinalState.error ≠ none then unlockingScriptResult
  else
    let lockingScriptResult := vm.debug
      (initialState program.state unlockingScriptFinalState.stack program.lockingScript)
      "Begin locking script evaluation."
    let lockingScriptFinalState := (lockingScriptResult.getLastD default).state
    if isPayToScriptHash program.lockingScript then
      if ¬ isPushOnly program.unlockingScript then
        unlockingScriptResult ++ lockingScriptResult ++
          [⟨"[P2SH error]", "P2SH error: unlockingScript must be push-only.",
            lockingScriptFinalState⟩]
      else if unlockingScriptFinalState.stack.length = 0 then
        unlockingScriptResult ++ lockingScriptResult ++
          [⟨"[P2SH error]", "P2SH error: unlockingScript must not leave an empty stack.",
            lockingScriptFinalState⟩]
      else
        let p2shStack := cloneStack unlockingScriptFinalState.stack
        let p2shScript := p2shStack.headD []
        let p2shScriptResult := vm.debug
          (initialState program.state p2shStack.tail p2shScript)
          "Begin P2SH script evaluation."
        unlockingScriptResult ++ lockingScriptResult ++ p2shScriptResult
    else unlockingScriptResult ++ lockingScriptResult

end BitcoinTs

namespace BitcoinTs

/-- C8: every composer pass starts from `ip = 0` and `lastCodeSeparator = −1`
with no error, sharing only stack contents: the locking pass begins with the
unlocking pass's final stack, the P2SH pass begins with a clone of that stack
whose popped top element becomes the third pass's script, and when the
unlocking pass's final state has an error the composer returns the unlocking
trace alone. -/
theorem c8_composer_passes (vm : Vm) (program : AuthenticationProgram) :
    (∀ (external : ExternalState) (stack : List (List Nat)) (script : List Nat),
      (initialState external stack script).ip = 0 ∧
      (initialState external stack script).lastCodeSeparator = -1 ∧
      (initialState external stack script).stack = stack ∧
      (initialState external stack script).script = script ∧
      (initialState external stack script).error = none) ∧
    (let u := vm.debug (initialState program.state [] program.unlockingScript)
        "Begin unlocking script evaluation."
     let uf := (u.getLastD default).state
     (uf.error ≠ none → debugBitcoinCashAuthenticationProgram vm program = u) ∧
     (uf.error = none →
       (let l := vm.debug (initialState program.state uf.stack program.lockingScript)
          "Begin locking script evaluation."
        let lf := (l.getLastD default).state
        debugBitcoinCashAuthenticationProgram vm program =
          u ++ l ++
            (if isPayToScriptHash program.lockingScript then
              (if ¬ isPushOnly program.unlockingScript then
                [⟨"[P2SH error]", "P2SH error: unlockingScript must be push-only.", lf⟩]
              else if uf.stack.length = 0 then
                [⟨"[P2SH error]",
                  "P2SH error: unlockingScript must not leave an empty stack.", lf⟩]
              else vm.debug
                (initialState program.state uf.stack.tail (uf.stack.headD []))
                "Begin P2SH script evaluation.")
            else [])))) := by
  refine ⟨fun _ _ _ => ⟨rfl, rfl, rfl, rfl, rfl⟩, ?_, ?_⟩
  · intro he
    simp only [debugBitcoinCashAuthenticationProgram]
    rw [if_pos he]
  · intro he
    simp only [debugBitcoinCashAuthenticationProgram, cloneStack_eq]
    rw [if_neg (not_not_intro he)]
    split_ifs <;> simp [List.append_assoc]

end BitcoinTs

namespace BitcoinTs

/-- A degenerate VM (banner-only debugger) and an empty program, used by the
C8 witness. -/
def demoVm : Vm := ⟨fun state desc => [⟨"", desc, state⟩]⟩

/-- An all-zero external state for concrete programs. -/
def baseExternal : ExternalState := ⟨0, 0, 0, 0, 0, 0, 0, [], [], [], [], []⟩

/-- An empty program (no scripts) for the C8 witness. -/
def demoProgram : AuthenticationProgram := ⟨[], baseExternal, []⟩

/-- Witness for C8: with a banner-only debugger and an empty program, the
error-free branch yields exactly the unlocking and locking banner steps. -/
theorem c8_witness :
    debugBitcoinCashAuthenticationProgram demoVm demoProgram =
      [⟨"", "Begin unlocking script evaluation.", initialState baseExternal [] []⟩,
        ⟨"", "Begin locking script evaluation.", initialState baseExternal [] []⟩] := by
  have h := (c8_composer_passes demoVm demoProgram).2.2 rfl
  exact h.trans rfl

/-- The P2SH template locking script with an all-zero hash. -/
def p2shLockingScript : List Nat := 0xa9 :: 0x14 :: (List.replicate 20 0 ++ [0x87])

/-- A program whose unlocking script is a single `OP_DATA_1` push with payload
byte `0x60`, against the P2SH template. -/
def c7Program : AuthenticationProgram :=
  ⟨p2shLockingScript, baseExternal, [0x01, 0x60]⟩

/-- C7 (failing input): the claim defines push-only over top-level instruction
positions, so the unlocking script `[OP_DATA_1, 0x60]` — one push opcode and
its payload byte — is push-only and must never be rejected. The code's raw
byte-scan tests the payload byte `0x60` as an opcode and rejects it: for any
crypto providers the composer appends the synthetic push-only error step. -/
theorem c7_pushonly_gate_rejects_pushonly_script (c : CryptoProviders) :
    ((debugBitcoinCashAuthenticationProgram
        (createAuthenticationVirtualMachine (bitcoinCashInstructionSet c))
        c7Program).getLastD default).description
      = "P2SH error: unlockingScript must be push-only." ∧
    isPushOnly [0x01, 0x60] = false :=
  ⟨rfl, rfl⟩

/-- C9: `OP_CHECKSIG` pops `publicKey` then `bitcoinEncodedSignature`; a
missing element gives `EmptyStack`; then public-key encoding, then signature
encoding are checked, in that order; otherwise it pushes the Script Number
rendering of the secp256k1 verification of the double-SHA256 digest of the
BCH signing serialization built over
`scriptCode = VarInt(len) || script[lastCodeSeparator+1 ..]`. -/
theorem c9_checksig_precedence (c : CryptoProviders) (state : CommonState) :
    (state.stack = [] →
      opCheckSigOperation c state = applyError .emptyStack { state with stack := [] }) ∧
    (∀ publicKey, state.stack = [publicKey] →
      opCheckSigOperation c state = applyError .emptyStack { state with stack := [] }) ∧
    (∀ publicKey signature rest, state.stack = publicKey :: signature :: rest →
      (c.isValidPublicKeyEncoding publicKey = false →
        opCheckSigOperation c state =
          applyError .invalidPublicKeyEncoding { state with stack := rest }) ∧
      (c.isValidPublicKeyEncoding publicKey = true →
        c.isValidSignatureEncoding signature = false →
        opCheckSigOperation c state =
          applyError .invalidSignatureEncoding { state with stack := rest }) ∧
      (c.isValidPublicKeyEncoding publicKey = true →
        c.isValidSignatureEncoding signature = true →
        (let scriptTail := state.script.drop (state.lastCodeSeparator + 1).toNat
         let scriptCode := bigIntToBitcoinVarInt scriptTail.length ++ scriptTail
         let decoded := c.decodeBitcoinSignature signature
         let serialization := c.generateBitcoinCashSigningSerialization state.version
           state.transactionOutpointsHash state.transactionSequenceNumbersHash
           state.outpointTransactionHash state.outpointIndex scriptCode
           state.outpointValue state.sequenceNumber state.correspondingOutputHash
           state.transactionOutputsHash state.locktime decoded.signingSerializationType
         let digest := c.sha256 (c.sha256 serialization)
         let verified := c.secp256k1Verify decoded.signature publicKey digest
         opCheckSigOperation c state =
           { state with stack := booleanToScriptNumber verified :: rest }))) := by
  refine ⟨?_, ?_, ?_⟩
  · intro h
    simp [opCheckSigOperation, popStack, h]
  · intro publicKey h
    simp [opCheckSigOperation, popStack, h]
  · intro publicKey signature rest h
    refine ⟨?_, ?_, ?_⟩
    · intro hpk
      simp [opCheckSigOperation, popStack, h, hpk]
    · intro hpk hsig
      simp [opCheckSigOperation, popStack, h, hpk, hsig]
    · intro hpk hsig
      simp [opCheckSigOperation, popStack, h, hpk, hsig]

/-- Trivial crypto providers for the C9 witness: everything valid, everything
verifies. -/
def demoCrypto : CryptoProviders :=
  { sha256 := fun _ => [1]
    ripemd160 := fun _ => [2]
    secp256k1Verify := fun _ _ _ => true
    isValidPublicKeyEncoding := fun _ => true
    isValidSignatureEncoding := fun _ => true
    decodeBitcoinSignature := fun sig => ⟨[], sig⟩
    generateBitcoinCashSigningSerialization := fun _ _ _ _ _ _ _ _ _ _ _ _ => [] }

/-- Witness for C9 on a concrete two-element stack with the trivial
providers: verification succeeds and Script Number 1 is pushed. -/
theorem c9_witness :
    opCheckSigOperation demoCrypto { baseState with stack := [[2], [3]] }
      = { baseState with stack := [[1]] } := by
  have h := ((c9_checksig_precedence demoCrypto
    { baseState with stack := [[2], [3]] }).2.2 [2] [3] [] rfl).2.2 rfl rfl
  exact h.trans rfl

end BitcoinTs

namespace BitcoinTs

/-! ## Reference-level model of `clone` (aliasing behaviour, for C3) -/

/-- A heap of `Uint8Array` objects: an allocation counter and the byte
contents behind each reference. -/
structure ByteHeap where
  next : Nat
  data : Nat → List Nat

/-- Allocate a fresh array with the given contents. -/
def halloc (h : ByteHeap) (contents : List Nat) : ByteHeap × Nat :=
  ({ next := h.next + 1
     data := fun r => if r = h.next then contents else h.data r }, h.next)

/-- `Uint8Array.prototype.slice()`: allocate a fresh copy of the referenced
bytes. -/
def sliceRef (h : ByteHeap) (r : Nat) : ByteHeap × Nat :=
  halloc h (h.data r)

/-- Write one byte of the array behind `r` (`array[i] = v`). -/
def writeByte (h : ByteHeap) (r i v : Nat) : ByteHeap :=
  { h with data := fun q => if q = r then (h.data r).set i v else h.data q }

/-- `BitcoinCashAuthenticationProgramState` with every `Uint8Array` as a heap
reference; the stack is an array of references. -/
structure RefState where
  ip : Nat
  script : Nat
  stack : List Nat
  error : Option CommonAuthenticationError
  lastCodeSeparator : Int
  blockHeight : Nat
  blockTime : Nat
  version : Nat
  locktime : Nat
  outpointIndex : Nat
  outpointValue : Nat
  sequenceNumber : Nat
  correspondingOutputHash : Nat
  outpointTransactionHash : Nat
  transactionOutpointsHash : Nat
  transactionOutputsHash : Nat
  transactionSequenceNumbersHash : Nat

/-- `bitcoinCashInstructionSet.clone` at the reference level, allocating in
the source's field order: `correspondingOutputHash.slice()`,
`outpointTransactionHash.slice()`, `script.slice()`, then `stack.slice()` —
which copies the array but keeps the same element references — then the three
transaction hashes; scalars are copied. -/
def bchCloneRef (h : ByteHeap) (s : RefState) : ByteHeap × RefState :=
  let corr := sliceRef h s.correspondingOutputHash
  let optx := sliceRef corr.1 s.outpointTransactionHash
  let scr := sliceRef optx.1 s.script
  let outp := sliceRef scr.1 s.transactionOutpointsHash
  let outs := sliceRef outp.1 s.transactionOutputsHash
  let seqs := sliceRef outs.1 s.transactionSequenceNumbersHash
  (seqs.1,
    { s with
      correspondingOutputHash := corr.2
      outpointTransactionHash := optx.2
      script := scr.2
      stack := s.stack
      transactionOutpointsHash := outp.2
      transactionOutputsHash := outs.2
      transactionSequenceNumbersHash := seqs.2 })

/-- The byte-level view of a reference state: the script bytes, the stack
contents, and the five external-state hashes. -/
def observe (h : ByteHeap) (s : RefState) :
    List Nat × List (List Nat) × List Nat × List Nat × List Nat × List Nat × List Nat :=
  (h.data s.script, s.stack.map h.data, h.data s.correspondingOutputHash,
    h.data s.outpointTransactionHash, h.data s.transactionOutpointsHash,
    h.data s.transactionOutputsHash, h.data s.transactionSequenceNumbersHash)

/-- A concrete heap: reference 0 holds the stack element `[1]`, references
1..6 hold the (empty) script and hashes. -/
def c3Heap : ByteHeap := ⟨7, fun r => if r = 0 then [1] else []⟩

/-- A concrete state over `c3Heap`. -/
def c3State : RefState :=
  { ip := 0
    script := 1
    stack := [0]
    error := none
    lastCodeSeparator := -1
    blockHeight := 0
    blockTime := 0
    version := 0
    locktime := 0
    outpointIndex := 0
    outpointValue := 0
    sequenceNumber := 0
    correspondingOutputHash := 2
    outpointTransactionHash := 3
    transactionOutpointsHash := 4
    transactionOutputsHash := 5
    transactionSequenceNumbersHash := 6 }

/-- C3 (failing input): `clone` copies the stack with `stack.slice()`, so the
clone shares its stack elements' bytes with the original. Mutating byte 0 of
the clone's top stack element changes the original's observed stack from
`[[1]]` to `[[2]]` — the original is not left byte-identical — while mutating
the clone's script or `correspondingOutputHash` (deep-copied by `.slice()`)
leaves the original unchanged. -/
theorem c3_clone_shares_stack_elements :
    (observe c3Heap c3State).2.1 = [[1]] ∧
    (let result := bchCloneRef c3Heap c3State
     (observe (writeByte result.1 (result.2.stack.headD 99) 0 2) c3State).2.1 = [[2]] ∧
     observe (writeByte result.1 (result.2.stack.headD 99) 0 2) c3State ≠
       observe c3Heap c3State ∧
     observe (writeByte result.1 result.2.script 0 2) c3State = observe c3Heap c3State ∧
     observe (writeByte result.1 result.2.correspondingOutputHash 0 2) c3State =
       observe c3Heap c3State) := by
  refine ⟨rfl, rfl, ?_, rfl, rfl⟩
  intro hcontra
  have h := congrArg (fun t => t.2.1) hcontra
  simp only at h
  exact absurd h (by decide)

end BitcoinTs
